import Mathlib

/-!
Verification development for the `phillpot-group/plotting-tools` repository.

Each script's parsing and validation logic is shallowly embedded in Lean:
  * tokenized text lines are modelled as lists (`List String` for header
    tokens, `List ℚ` for lines whose tokens the script converts to floats;
    the numeric token values are modelled exactly in ℚ),
  * Python dicts are modelled as functions into `Option`,
  * Python exceptions (AssertionError, KeyError, IndexError, ValueError,
    ZeroDivisionError) are modelled by `Except String`,
  * NumPy's `mean(-, axis=0)` is modelled exactly on rectangular inputs.

Namespaces mirror the source files:
  `PlotVaspNeb`   <- scripts/plot-vasp-neb.py
  `Utils`         <- scripts/utils/__init__.py
  `PlotLammpsRdf` <- scripts/plot-lammps-rdf.py
  `PlotGaspHull`  <- scripts/plot-gasp-hull.py
  `PlotLammpsLog` <- scripts/plot-lammps-log.py
  `PlotVaspBand`  <- scripts/plot-vasp-bandstructure.py
-/

/-- Explicit-recursion model of a Python list comprehension that can raise:
`optMapM f l` is `some (l.map ...)` when `f` succeeds on every element and
`none` as soon as `f` fails (the comprehension raises at the first bad
element). -/
def optMapM {α β : Type} (f : α → Option β) : List α → Option (List β)
  | [] => some []
  | a :: l =>
    match f a with
    | none => none
    | some b => (optMapM f l).map (fun bs => b :: bs)

/-- Explicit-recursion model of a Python list comprehension whose body can
raise a labelled exception. -/
def excMapM {α β : Type} (f : α → Except String β) : List α → Except String (List β)
  | [] => .ok []
  | a :: l =>
    match f a with
    | .error e => .error e
    | .ok b => (excMapM f l).map (fun bs => b :: bs)

/-- Explicit-recursion model of a Python `for` loop over `l` whose body
updates an accumulator and can raise. -/
def excFoldlM {σ α : Type} (f : σ → α → Except String σ) : σ → List α → Except String σ
  | s, [] => .ok s
  | s, a :: l =>
    match f s a with
    | .error e => .error e
    | .ok s' => excFoldlM f s' l

/-- Python `lst[i]` indexing: non-negative indices count from the front,
negative indices count from the back, and anything out of range is an
IndexError (`none`). -/
def pyIndex (l : List ℚ) (i : ℤ) : Option ℚ :=
  if 0 ≤ i then l.get? i.toNat
  else if (-i).toNat ≤ l.length then l.get? (l.length - (-i).toNat)
  else none

/-- Key order of a Python dict built by inserting the elements of `l` in
order: first occurrence of each key wins. -/
def pyDictKeys (l : List String) : List String :=
  l.foldl (fun acc e => if e ∈ acc then acc else acc ++ [e]) []

namespace PlotVaspNeb

/-- Positions extracted by `parse_vasp_neb_file`: the 2nd whitespace token
(`line.split()[1]`) of every line; a line with fewer than 2 tokens is an
IndexError. -/
def positionsOf (lines : List (List ℚ)) : Option (List ℚ) :=
  optMapM (fun l => l.get? 1) lines

/-- Energies extracted by `parse_vasp_neb_file`: the 3rd whitespace token
(`line.split()[2]`) of every line. -/
def energiesOf (lines : List (List ℚ)) : Option (List ℚ) :=
  optMapM (fun l => l.get? 2) lines

/-- Python `max` over a nonempty list given as head and tail: keep the
current value unless a later element is strictly larger. -/
def listMax (p : ℚ) (ps : List ℚ) : ℚ :=
  ps.foldl (fun a b => if a < b then b else a) p

/-- Shallow embedding of `parse_vasp_neb_file` (scripts/plot-vasp-neb.py,
lines 12-31).  Input lines are pre-tokenized with the numeric value of each
token; the function extracts positions (token 1), then energies (token 2),
then normalizes every position by the maximum raw position.  `max` of an
empty sequence is a ValueError and dividing by a zero maximum is a
ZeroDivisionError, exactly as in Python. -/
def parse_vasp_neb_file (lines : List (List ℚ)) : Except String (List ℚ × List ℚ) :=
  match positionsOf lines with
  | none => .error "IndexError: list index out of range"
  | some positions =>
    match energiesOf lines with
    | none => .error "IndexError: list index out of range"
    | some energies =>
      match positions with
      | [] => .error "ValueError: max() arg is an empty sequence"
      | p :: ps =>
        let max_pos := listMax p ps
        if max_pos = 0 then .error "ZeroDivisionError: float division by zero"
        else .ok (energies, (p :: ps).map (fun pos => pos / max_pos))

/-- Argument validation block of plot-vasp-neb.py `__main__` (lines
124-147).  On a label, color or linestyle count mismatch the `assert`
raises AssertionError and the `except` block runs `e.args += "<str>"`;
tuple-plus-str itself raises TypeError (chaining the AssertionError), so
every mismatch branch aborts the script before `main` runs.  The trailing
`raise` (present for label and color, absent for linestyle) is dead code
never reached. -/
def neb_validate_args (label color linestyle : List String) (n_inputs : ℕ) :
    Except String Unit :=
  if label ≠ [] ∧ label.length ≠ n_inputs then
    .error "TypeError: can only concatenate tuple (not str) to tuple"
  else if color ≠ [] ∧ color.length ≠ n_inputs then
    .error "TypeError: can only concatenate tuple (not str) to tuple"
  else if linestyle ≠ [] ∧ linestyle.length ≠ n_inputs then
    .error "TypeError: can only concatenate tuple (not str) to tuple"
  else
    .ok ()

end PlotVaspNeb

/-- Result of `process_color_and_cmap_args`: either a linear colormap built
from explicit colors, the named default colormap, or a discretized named
colormap (represented by the indices sampled from the base colormap). -/
inductive CmapResult : Type
  | linear (colors : List String)
  | named (cmapName : String)
  | discretized (cmapName : String) (indices : List ℤ)
deriving DecidableEq

namespace Utils

/-- Shallow embedding of `_discretize_colormap` (scripts/utils/__init__.py,
lines 9-30).  `N` is `cmap.N` for the looked-up colormap, `n_colors` the
requested number of discrete colors.  `step = int(cmap.N / (n_colors - 1))`
divides by zero when `n_colors = 1`; `valid_indices[0] = 0` is an
IndexError when the list is empty.  The colormap object itself is opaque,
so the embedding returns the list of base-colormap indices that survive the
filter. -/
def _discretize_colormap (N : ℕ) (n_colors : ℕ) : Except String (List ℤ) :=
  if ((n_colors : ℤ) - 1) = 0 then .error "ZeroDivisionError: division by zero"
  else
    let step : ℤ := Int.tdiv (N : ℤ) ((n_colors : ℤ) - 1)
    let valid_indices := (List.range n_colors).map (fun i => (i : ℤ) * step - 1)
    match valid_indices with
    | [] => .error "IndexError: list assignment index out of range"
    | _ :: rest =>
      .ok (((List.range N).map (fun i => (i : ℤ))).filter (fun i => i ∈ 0 :: rest))

/-- Shallow embedding of `process_color_and_cmap_args`
(scripts/utils/__init__.py, lines 88-107).  `getCmapN` gives `cmap.N` for a
named matplotlib colormap.  A truthy `--color` list takes priority; with no
`--cmap` the default `tab10` is used; otherwise the named colormap is
discretized to `n_series` colors. -/
def process_color_and_cmap_args (getCmapN : String → ℕ) (color : List String)
    (cmap : Option String) (n_series : ℕ) : Except String CmapResult :=
  if color ≠ [] then .ok (.linear color)
  else
    match cmap with
    | none => .ok (.named "tab10")
    | some cmapName =>
      (_discretize_colormap (getCmapN cmapName) n_series).map
        (fun idxs => .discretized cmapName idxs)

end Utils

namespace PlotGaspHull

/-- Opaque model of a pymatgen `Composition` as used by
plot-gasp-hull.py: the script only reads its reduced formula, its total
atom count and its atomic fraction of an endpoint key. -/
structure Composition : Type where
  reduced_formula : String
  num_atoms : ℚ
  atomic_fraction : String → ℚ

/-- One parsed data row of a GASP `run_data` file (columns id, composition,
total_energy, epa, num_calcs, best_value; only the three used by the
parser are modelled). -/
structure RunDataRow : Type where
  composition : Composition
  total_energy : ℚ
  epa : ℚ

/-- Endpoint keys of the `endpoint_energy` dict
(scripts/plot-gasp-hull.py, line 50): the reduced formulas of the
composition-space endpoints, deduplicated with first-occurrence order as a
Python dict comprehension does. -/
def endpoint_keys (endpoints : List Composition) : List String :=
  pyDictKeys (endpoints.map (fun e => e.reduced_formula))

/-- Reference energy-per-atom loop of `parse_run_data_file`
(scripts/plot-gasp-hull.py, lines 50-57): the entry for endpoint formula
`e` starts at 0 and is replaced by a row's `epa` whenever the row's reduced
formula equals `e` AND that `epa` is strictly below the current value. -/
def endpoint_energy (rows : List RunDataRow) (e : String) : ℚ :=
  rows.foldl
    (fun current_min r =>
      if r.composition.reduced_formula = e ∧ r.epa < current_min then r.epa
      else current_min)
    0

/-- Formation-energy loop of `parse_run_data_file`
(scripts/plot-gasp-hull.py, lines 69-75): starting from the row's total
energy, subtract `reference_epa[k] * n_atoms_k` for every endpoint key `k`,
where `n_atoms_k = comp.num_atoms * comp.get_atomic_fraction(k)` (lines
58-68). -/
def formation_energy (keys : List String) (refE : String → ℚ) (r : RunDataRow) : ℚ :=
  keys.foldl
    (fun etotal k =>
      etotal - refE k * (r.composition.num_atoms * r.composition.atomic_fraction k))
    r.total_energy

/-- Shallow embedding of `parse_run_data_file` (scripts/plot-gasp-hull.py,
lines 14-81) after the CSV/pandas lexing: given the endpoint compositions
of the first line and the tabular rows, produce one
(composition, formation energy) entry per row. -/
def parse_run_data_file (endpoints : List Composition) (rows : List RunDataRow) :
    List (Composition × ℚ) :=
  let keys := endpoint_keys endpoints
  rows.map (fun r => (r.composition, formation_energy keys (endpoint_energy rows) r))

end PlotGaspHull

namespace PlotLammpsLog

/-- Heading-to-position map of `parse_lammps_log_file`
(scripts/plot-lammps-log.py, line 38): a Python dict comprehension over
`enumerate(headings)`, so for a duplicated heading the LAST index wins. -/
def headings_map (headings : List String) (k : String) : Option ℕ :=
  headings.enum.foldl (fun acc p => if p.2 = k then some p.1 else acc) none

/-- Extraction of one property column
(scripts/plot-lammps-log.py, line 43): for each tokenized data row, look
the property up in the headings map (KeyError if absent), index the row
(IndexError if too short) and convert the token to float (ValueError if
malformed; `floatFn` models Python `float`).  The comprehension is lazy:
with no data rows nothing is evaluated and no error can be raised. -/
def extract_column (floatFn : String → Option ℚ) (headings : List String)
    (segments : List (List String)) (p : String) : Except String (List ℚ) :=
  excMapM
    (fun seg =>
      match headings_map headings p with
      | none => .error "KeyError: property not found in headings map"
      | some idx =>
        match seg.get? idx with
        | none => .error "IndexError: list index out of range"
        | some tok =>
          match floatFn tok with
          | none => .error "ValueError: could not convert string to float"
          | some q => .ok q)
    segments

/-- Properties dict of `parse_lammps_log_file`
(scripts/plot-lammps-log.py, lines 42-45), modelled as an association list
in insertion order.  NOTE: the dict is built from the module-level
`args.property`, not from the `property_names` parameter. -/
def props_build (floatFn : String → Option ℚ) (headings : List String)
    (segments : List (List String)) (args_property : List String) :
    Except String (List (String × List ℚ)) :=
  excMapM
    (fun p => (extract_column floatFn headings segments p).map (fun v => (p, v)))
    args_property

/-- Timestep extraction (scripts/plot-lammps-log.py, line 47): the `Step`
column of each row converted by Python `int` (modelled by `intFn`). -/
def steps_build (intFn : String → Option ℤ) (headings : List String)
    (segments : List (List String)) : Except String (List ℤ) :=
  excMapM
    (fun seg =>
      match headings_map headings "Step" with
      | none => .error "KeyError: property not found in headings map"
      | some idx =>
        match seg.get? idx with
        | none => .error "IndexError: list index out of range"
        | some tok =>
          match intFn tok with
          | none => .error "ValueError: invalid literal for int"
          | some n => .ok n)
    segments

/-- Lookup in the finished properties dict: the last binding for a key
wins, as in a Python dict. -/
def dict_get (l : List (String × List ℚ)) (k : String) : Option (List ℚ) :=
  l.foldl (fun acc p => if p.1 = k then some p.2 else acc) none

/-- Shallow embedding of `parse_lammps_log_file`
(scripts/plot-lammps-log.py, lines 12-48).  `lines` is the tokenized file:
the first line is the heading row, the remaining lines are data rows.
`args_property` models the module-level `args.property` that the function
actually reads; `property_names` is the function's parameter, which the
body never uses.  An input without a `Step` heading is an AssertionError;
an empty file is an IndexError at `lines[0]`. -/
def parse_lammps_log_file (floatFn : String → Option ℚ) (intFn : String → Option ℤ)
    (args_property : List String) (property_names : List String)
    (lines : List (List String)) : Except String (List ℤ × List (String × List ℚ)) :=
  match lines with
  | [] => .error "IndexError: list index out of range"
  | headings :: segments =>
    if "Step" ∈ headings then
      match props_build floatFn headings segments args_property with
      | .error e => .error e
      | .ok props =>
        match steps_build intFn headings segments with
        | .error e => .error e
        | .ok steps => .ok (steps, props)
    else .error "AssertionError: Log file is missing the required Step property."

end PlotLammpsLog

namespace PlotLammpsRdf

/-- Argument validation block of plot-lammps-rdf.py `__main__` (lines
139-151).  On a color or label count mismatch the `assert` raises
AssertionError and the `except` block runs `e.args += "<str>"`;
tuple-plus-str itself raises TypeError (chaining the AssertionError), so
both mismatch branches abort the script before `main` runs.  The `raise`
in the color branch (and its absence in the label branch) is dead code
never reached. -/
def rdf_validate_args (color label : List String) (column : List ℤ) :
    Except String Unit :=
  if color ≠ [] ∧ color.length ≠ column.length then
    .error "TypeError: can only concatenate tuple (not str) to tuple"
  else if label ≠ [] ∧ label.length ≠ column.length then
    .error "TypeError: can only concatenate tuple (not str) to tuple"
  else
    .ok ()

/-- One step of the inner loop of `_parse_rdf_block`
(scripts/plot-lammps-rdf.py, lines 30-37) for a single tokenized body
line: for every requested column id (in list order, duplicates included),
append `elements[col_id + 2]` to that column's list; a missing token is an
IndexError. -/
def block_line_step (columns : List ℤ) (line : List ℚ)
    (bd : ℤ → Option (List ℚ)) : Except String (ℤ → Option (List ℚ)) :=
  excFoldlM
    (fun bd col =>
      match pyIndex line (col + 2) with
      | none => .error "IndexError: list index out of range"
      | some v =>
        .ok (fun c => if c = col then (bd c).map (fun xs => xs ++ [v]) else bd c))
    bd columns

/-- Shallow embedding of `_parse_rdf_block` (scripts/plot-lammps-rdf.py,
lines 24-38): a dict from requested column id to the values of that column
over the body lines of one timestep block. -/
def _parse_rdf_block (columns : List ℤ) (blockLines : List (List ℚ)) :
    Except String (ℤ → Option (List ℚ)) :=
  excFoldlM (fun bd line => block_line_step columns line bd)
    (fun c => if c ∈ columns then some [] else none) blockLines

/-- Shallow embedding of `_parse_rdf_distances`
(scripts/plot-lammps-rdf.py, lines 12-21): the 2nd token of every body
line of the first block. -/
def _parse_rdf_distances (blockLines : List (List ℚ)) : Except String (List ℚ) :=
  excMapM
    (fun line =>
      match pyIndex line 1 with
      | none => .error "IndexError: list index out of range"
      | some d => .ok d)
    blockLines

/-- Parser state of `_parse_rdf_file`: the distances (None until the first
block is seen) and the per-column list of per-block value rows. -/
structure RdfState : Type where
  distances : Option (List ℚ)
  column_data : ℤ → Option (List (List ℚ))

/-- Appending one parsed block to the accumulated column data
(scripts/plot-lammps-rdf.py, lines 65-66): for every requested column (in
list order), append the block's list for that column. -/
def append_cols (columns : List ℤ) (bd : ℤ → Option (List ℚ))
    (cd : ℤ → Option (List (List ℚ))) : ℤ → Option (List (List ℚ)) :=
  columns.foldl
    (fun cd col => fun c =>
      if c = col then (cd c).map (fun xs => xs ++ [(bd col).getD []]) else cd c)
    cd

/-- Python `int` on a token that already carries its numeric value:
faithful for integer-valued tokens, the only strings `int()` accepts. -/
def tokInt (q : ℚ) : ℤ := q.num

/-- One iteration of the scanning loop of `_parse_rdf_file`
(scripts/plot-lammps-rdf.py, lines 55-66) at line index `i` (indices are
relative to the line list with the two comment lines already dropped).  A
line with exactly two tokens is a block header whose 2nd token is the row
count; the following `nrows` lines are parsed as the block body, the
distances are captured if not yet set, and the block's column lists are
appended.  Every other line leaves the state unchanged. -/
def scan_step (columns : List ℤ) (lines : List (List ℚ)) (st : RdfState) (i : ℕ) :
    Except String RdfState :=
  match lines.get? i with
  | none => .ok st
  | some line =>
    if line.length = 2 then
      let nrows := tokInt (line.getD 1 0)
      let blockLines := (lines.drop (i + 1)).take nrows.toNat
      match _parse_rdf_block columns blockLines with
      | .error e => .error e
      | .ok bd =>
        match st.distances with
        | none =>
          match _parse_rdf_distances blockLines with
          | .error e => .error e
          | .ok ds => .ok ⟨some ds, append_cols columns bd st.column_data⟩
        | some ds => .ok ⟨some ds, append_cols columns bd st.column_data⟩
    else .ok st

/-- Shallow embedding of `_parse_rdf_file` (scripts/plot-lammps-rdf.py,
lines 41-69): drop the two comment lines, then scan every remaining line
index in order looking for two-token block headers.  The final conversion
of each column's list of rows to a NumPy array only changes the container,
not the values, and is not modelled separately. -/
def _parse_rdf_file (lines0 : List (List ℚ)) (columns : List ℤ) :
    Except String RdfState :=
  let lines := lines0.drop 2
  excFoldlM (fun st i => scan_step columns lines st i)
    ⟨none, fun c => if c ∈ columns then some [] else none⟩
    (List.range lines.length)

/-- NumPy `mean(a, axis=0)` on a rectangular nonempty list of rows: entry
`j` of the result is the mean over rows of entry `j`.  (On the empty input
NumPy warns and yields an empty-shaped mean; the embedding returns `[]`,
and the claims only use the nonempty rectangular case.) -/
def np_mean_axis0 (blocks : List (List ℚ)) : List ℚ :=
  match blocks with
  | [] => []
  | b0 :: _ =>
    (List.range b0.length).map
      (fun j => (blocks.map (fun b => b.getD j 0)).sum / (blocks.length : ℚ))

/-- Curve plotted by `main` for requested column `col`
(scripts/plot-lammps-rdf.py, lines 77-78): the mean over the block axis of
that column's stacked rows. -/
def plotted_curve (lines0 : List (List ℚ)) (columns : List ℤ) (col : ℤ) :
    Except String (List ℚ) :=
  (_parse_rdf_file lines0 columns).map
    (fun st => np_mean_axis0 ((st.column_data col).getD []))

/-- Description of one timestep block of a well-formed LAMMPS RDF file:
a header timestep token and the tokenized body rows. -/
structure RdfBlockSpec : Type where
  ts : ℚ
  rows : List (List ℚ)

/-- Lines contributed to the file by one block: the two-token header
`timestep nrows` followed by the body rows. -/
def blockLinesOf (b : RdfBlockSpec) : List (List ℚ) :=
  [b.ts, (b.rows.length : ℚ)] :: b.rows

/-- A well-formed LAMMPS RDF file: two comment lines, then the blocks in
order. -/
def mk_rdf_lines (c1 c2 : List ℚ) (blocks : List RdfBlockSpec) : List (List ℚ) :=
  c1 :: c2 :: blocks.bind blockLinesOf

end PlotLammpsRdf

namespace PlotVaspBand

/-- Update of the per-band dict for one (label, value) pair produced by
`zip(labels, data)` (scripts/plot-vasp-bandstructure.py, lines 156-157):
append the value to the list stored under the label. -/
def update_band (m : String → Option (List ℚ)) (l : String) (v : ℚ) :
    String → Option (List ℚ) :=
  fun x => if x = l then (m x).map (fun xs => xs ++ [v]) else m x

/-- Processing of one tokenized data row: fold `update_band` over
`zip(labels, data)`, which truncates at the shorter list, exactly as
Python `zip` does. -/
def proc_row : List String → List ℚ → (String → Option (List ℚ)) →
    (String → Option (List ℚ))
  | l :: ls, v :: vs, m => proc_row ls vs (update_band m l v)
  | _, _, m => m

/-- The fresh `_band_data` dict `{label: [] for label in labels}`
(scripts/plot-vasp-bandstructure.py, line 150). -/
def init_band (labels : List String) : String → Option (List ℚ) :=
  fun x => if x ∈ labels then some [] else none

/-- Inner loop of `parse_band_file` (scripts/plot-vasp-bandstructure.py,
lines 151-157): read `k` consecutive tokenized rows starting at line index
`idx`, folding each into the band dict; a missing line is an IndexError. -/
def build_band (labels : List String) (lines : List (List ℚ)) :
    ℕ → ℕ → (String → Option (List ℚ)) → Option (String → Option (List ℚ))
  | 0, _, m => some m
  | j + 1, idx, m =>
    match lines.get? idx with
    | none => none
    | some row => build_band labels lines j (idx + 1) (proc_row labels row m)

/-- Shallow embedding of `parse_band_file`
(scripts/plot-vasp-bandstructure.py, lines 120-159) after the header and
metadata lines are lexed: `labels` are the header's column labels,
`nkpts`/`nbands` the two trailing integers of the metadata line, and
`lines` the full tokenized line list (indices 0-2 hold the header, the
metadata and the band-index marker, which the data loop never reads).
Band `i` reads the `nkpts` rows starting at line index `3 + i * nkpts`. -/
def parse_band_file (labels : List String) (nkpts nbands : ℕ)
    (lines : List (List ℚ)) : Option (List (String → Option (List ℚ))) :=
  optMapM
    (fun i => build_band labels lines nkpts (3 + i * nkpts) (init_band labels))
    (List.range nbands)

end PlotVaspBand

namespace PlotVaspNeb

theorem listMax_cons (p b : ℚ) (t : List ℚ) :
    listMax p (b :: t) = listMax (if p < b then b else p) t := rfl

theorem listMax_mem (p : ℚ) (ps : List ℚ) : listMax p ps ∈ p :: ps := by
  induction ps generalizing p with
  | nil => simp [listMax]
  | cons b t ih =>
    rw [listMax_cons]
    by_cases h : p < b
    · simp only [if_pos h]
      rcases List.mem_cons.mp (ih b) with h' | h'
      · simp [h']
      · simp [h']
    · simp only [if_neg h]
      rcases List.mem_cons.mp (ih p) with h' | h'
      · simp [h']
      · simp [h']

theorem le_listMax_self (p : ℚ) (ps : List ℚ) : p ≤ listMax p ps := by
  induction ps generalizing p with
  | nil => simp [listMax]
  | cons b t ih =>
    rw [listMax_cons]
    by_cases h : p < b
    · simp only [if_pos h]
      exact le_trans (le_of_lt h) (ih b)
    · simp only [if_neg h]
      exact ih p

theorem le_listMax (p : ℚ) (ps : List ℚ) : ∀ x ∈ p :: ps, x ≤ listMax p ps := by
  induction ps generalizing p with
  | nil =>
    intro x hx
    simp at hx
    simp [listMax, hx]
  | cons b t ih =>
    intro x hx
    rw [listMax_cons]
    rcases List.mem_cons.mp hx with rfl | hx'
    · by_cases h : x < b
      · simp only [if_pos h]
        exact le_trans (le_of_lt h) (le_listMax_self b t)
      · simp only [if_neg h]
        exact le_listMax_self x t
    · rcases List.mem_cons.mp hx' with rfl | hx''
      · by_cases h : p < x
        · simp only [if_pos h]
          exact le_listMax_self x t
        · simp only [if_neg h]
          exact le_trans (not_lt.mp h) (le_listMax_self p t)
      · by_cases h : p < b
        · simp only [if_pos h]
          exact ih b x (List.mem_cons_of_mem b hx'')
        · simp only [if_neg h]
          exact ih p x (List.mem_cons_of_mem p hx'')

/-- Claim C6: whenever `parse_vasp_neb_file` returns, the energies are the
3rd whitespace token of each line in file order, and each returned
normalized position is that line's raw path position (2nd token) divided
by the maximum raw position over all lines. -/
theorem c6_neb_normalization (lines : List (List ℚ)) (es sps : List ℚ)
    (h : parse_vasp_neb_file lines = .ok (es, sps)) :
    ∃ ps m, positionsOf lines = some ps ∧ energiesOf lines = some es ∧
      m ∈ ps ∧ (∀ x ∈ ps, x ≤ m) ∧ sps = ps.map (fun pos => pos / m) := by
  cases hp : positionsOf lines with
  | none => simp [parse_vasp_neb_file, hp] at h
  | some positions =>
    cases he : energiesOf lines with
    | none => simp [parse_vasp_neb_file, hp, he] at h
    | some energies =>
      cases positions with
      | nil => simp [parse_vasp_neb_file, hp, he] at h
      | cons p ps =>
        by_cases hz : listMax p ps = 0
        · simp [parse_vasp_neb_file, hp, he, hz] at h
        · simp only [parse_vasp_neb_file, hp, he, if_neg hz, Except.ok.injEq,
            Prod.mk.injEq] at h
          obtain ⟨h1, h2⟩ := h
          exact ⟨p :: ps, listMax p ps, rfl, by rw [h1], listMax_mem p ps,
            le_listMax p ps, h2.symm⟩

/-- Claim C6 witness: raw positions `[0, 5, 10]` with energies
`[13, 14, 15]` normalize to `[0, 1/2, 1]`. -/
theorem c6_neb_normalization_witness :
    ∃ ps m,
      positionsOf [[0, 0, 13], [1, 5, 14], [2, 10, 15]] = some ps ∧
      energiesOf [[0, 0, 13], [1, 5, 14], [2, 10, 15]] = some [13, 14, 15] ∧
      m ∈ ps ∧ (∀ x ∈ ps, x ≤ m) ∧
      [0, 1/2, 1] = ps.map (fun pos => pos / m) :=
  c6_neb_normalization [[0, 0, 13], [1, 5, 14], [2, 10, 15]] [13, 14, 15]
    [0, 1/2, 1]
    (by norm_num [parse_vasp_neb_file, positionsOf, energiesOf, optMapM, listMax])

/-- Claim C9: on a nonempty input whose raw positions are all 0 (and whose
lines are long enough for the position and energy extractions to succeed),
`parse_vasp_neb_file` raises ZeroDivisionError instead of returning. -/
theorem c9_neb_zero_division (lines : List (List ℚ)) (p : ℚ) (ps es : List ℚ)
    (hp : positionsOf lines = some (p :: ps))
    (he : energiesOf lines = some es)
    (hz : ∀ x ∈ p :: ps, x = 0) :
    parse_vasp_neb_file lines = .error "ZeroDivisionError: float division by zero" := by
  have hm : listMax p ps = 0 := hz _ (listMax_mem p ps)
  unfold parse_vasp_neb_file
  rw [hp, he]
  simp [hm]

/-- Claim C9 witness: the single line `0 0.0 3.0` (all raw positions zero)
raises ZeroDivisionError. -/
theorem c9_neb_zero_division_witness :
    parse_vasp_neb_file [[0, 0, 3]] =
      .error "ZeroDivisionError: float division by zero" :=
  c9_neb_zero_division [[0, 0, 3]] 0 [] [3] (by decide) (by decide) (by decide)

end PlotVaspNeb

/-- Claim C2: whenever a provided per-series option list's length differs
from the declared series count, the script's argument validation fails
with an error and aborts before `main` runs, hence before any figure is
written; in particular a label list of the wrong length in the RDF script
and a linestyle list of the wrong length in the NEB script are fatal (the
failed count assert is chained into a TypeError raised by `e.args += str`
inside the `except` block). -/
theorem c2_count_mismatch_fatal :
    (∀ (color label : List String) (column : List ℤ),
      ((color ≠ [] ∧ color.length ≠ column.length) ∨
        (label ≠ [] ∧ label.length ≠ column.length)) →
      ∃ e, PlotLammpsRdf.rdf_validate_args color label column =
        Except.error e) ∧
    (∀ (label color linestyle : List String) (n_inputs : ℕ),
      ((label ≠ [] ∧ label.length ≠ n_inputs) ∨
        (color ≠ [] ∧ color.length ≠ n_inputs) ∨
        (linestyle ≠ [] ∧ linestyle.length ≠ n_inputs)) →
      ∃ e, PlotVaspNeb.neb_validate_args label color linestyle n_inputs =
        Except.error e) := by
  constructor
  · intro color label column h
    unfold PlotLammpsRdf.rdf_validate_args
    by_cases h1 : color ≠ [] ∧ color.length ≠ column.length
    · rw [if_pos h1]
      exact ⟨_, rfl⟩
    · rw [if_neg h1]
      rcases h with hc | hl
      · exact absurd hc h1
      · rw [if_pos hl]
        exact ⟨_, rfl⟩
  · intro label color linestyle n_inputs h
    unfold PlotVaspNeb.neb_validate_args
    by_cases h1 : label ≠ [] ∧ label.length ≠ n_inputs
    · rw [if_pos h1]
      exact ⟨_, rfl⟩
    · rw [if_neg h1]
      by_cases h2 : color ≠ [] ∧ color.length ≠ n_inputs
      · rw [if_pos h2]
        exact ⟨_, rfl⟩
      · rw [if_neg h2]
        rcases h with hl | hc | hs
        · exact absurd hl h1
        · exact absurd hc h2
        · rw [if_pos hs]
          exact ⟨_, rfl⟩

/-- Claim C2 witness: one label for two RDF columns and one linestyle for
two NEB inputs both make validation abort with an error. -/
theorem c2_count_mismatch_fatal_witness :
    (∃ e, PlotLammpsRdf.rdf_validate_args [] ["only-label"] [1, 2] =
      Except.error e) ∧
    (∃ e, PlotVaspNeb.neb_validate_args [] [] ["solid"] 2 =
      Except.error e) :=
  ⟨c2_count_mismatch_fatal.1 [] ["only-label"] [1, 2] (Or.inr (by decide)),
    c2_count_mismatch_fatal.2 [] [] ["solid"] 2 (Or.inr (Or.inr (by decide)))⟩

/-- Claim C10 counterexample: an invocation that supplies `--cmap` together
with a matching `--color` list and exactly one data series takes the color
branch and succeeds, so not every invocation supplying `--cmap` with one
series fails. -/
theorem c10_counterexample_color_branch :
    Utils.process_color_and_cmap_args (fun _ => 256) ["red"] (some "viridis") 1 =
      .ok (CmapResult.linear ["red"]) := rfl

/-- Claim C10 (amended): `_discretize_colormap` divides by zero for every
colormap size when `n_colors = 1`, and an invocation that supplies
`--cmap` without `--color` and has exactly one data series fails with
ZeroDivisionError before plotting. -/
theorem c10_discretize_single_series (N : ℕ) (getCmapN : String → ℕ) (name : String) :
    Utils._discretize_colormap N 1 = .error "ZeroDivisionError: division by zero" ∧
    Utils.process_color_and_cmap_args getCmapN [] (some name) 1 =
      .error "ZeroDivisionError: division by zero" := by
  constructor
  · simp [Utils._discretize_colormap]
  · simp [Utils.process_color_and_cmap_args, Utils._discretize_colormap, Except.map]

namespace PlotGaspHull

/-- Claim C1 counterexample: a single row whose composition reduces to the
endpoint formula `"A"` with a positive energy-per-atom of 1.  The code's
reference energy stays 0, while the minimum energy-per-atom over matching
rows is 1. -/
theorem c1_counterexample :
    endpoint_energy [⟨⟨"A", 1, fun _ => 1⟩, 10, 1⟩] "A" = 0 ∧
    (([⟨⟨"A", 1, fun _ => 1⟩, 10, 1⟩] : List RunDataRow).filter
        (fun r => decide (r.composition.reduced_formula = "A"))).map
      (fun r => r.epa) = [1] ∧
    (0 : ℚ) ≠ 1 :=
  ⟨rfl, rfl, by norm_num⟩

theorem endpoint_energy_foldl_min (e : String) (rows : List RunDataRow) :
    ∀ a : ℚ,
      rows.foldl
        (fun current_min r =>
          if r.composition.reduced_formula = e ∧ r.epa < current_min then r.epa
          else current_min) a =
      ((rows.filter (fun r => decide (r.composition.reduced_formula = e))).map
        (fun r => r.epa)).foldl min a := by
  induction rows with
  | nil => intro a; rfl
  | cons r t ih =>
    intro a
    by_cases hm : r.composition.reduced_formula = e
    · have hstep : (if r.epa < a then r.epa else a) = min a r.epa := by
        by_cases hlt : r.epa < a
        · simp [hlt, min_eq_right (le_of_lt hlt)]
        · simp [hlt, min_eq_left (not_lt.mp hlt)]
      simp only [List.foldl_cons, List.filter_cons, hm, decide_True, if_true,
        true_and, List.map_cons, hstep, ih (min a r.epa)]
    · have hstep :
          (if r.composition.reduced_formula = e ∧ r.epa < a then r.epa else a) = a :=
        if_neg (fun hc => hm hc.1)
      simp only [List.foldl_cons]
      rw [hstep]
      simp only [List.filter_cons, hm, decide_False, Bool.false_eq_true, if_false]
      exact ih a

/-- Claim C1 (amended): the reference energy-per-atom assigned to an
endpoint formula is the fold of `min` over the matching rows' `epa`
values starting from 0, i.e. `min(0, min matching epa)` — the observed
minimum only when it is negative, and 0 when no row matches or every
matching `epa` is non-negative. -/
theorem c1_endpoint_energy_min_with_zero (rows : List RunDataRow) (e : String) :
    endpoint_energy rows e =
      ((rows.filter (fun r => decide (r.composition.reduced_formula = e))).map
        (fun r => r.epa)).foldl min 0 :=
  endpoint_energy_foldl_min e rows 0

theorem foldl_sub_eq_sub_sum (f : String → ℚ) (l : List String) :
    ∀ a : ℚ, l.foldl (fun x k => x - f k) a = a - (l.map f).sum := by
  induction l with
  | nil => intro a; simp
  | cons k t ih =>
    intro a
    simp only [List.foldl_cons, List.map_cons, List.sum_cons, ih (a - f k)]
    ring

/-- Claim C5: `parse_run_data_file` outputs exactly one
(composition, formation energy) entry per data row, and each row's
formation energy is its total energy minus the sum over endpoint formulas
of reference-epa times the row's atom count of that endpoint (total atom
count times atomic fraction, recomputed per row). -/
theorem c5_formation_energy (endpoints : List Composition) (rows : List RunDataRow) :
    parse_run_data_file endpoints rows =
      rows.map (fun r =>
        (r.composition,
          r.total_energy -
            ((endpoint_keys endpoints).map
              (fun k => endpoint_energy rows k *
                (r.composition.num_atoms * r.composition.atomic_fraction k))).sum)) ∧
    (parse_run_data_file endpoints rows).length = rows.length := by
  constructor
  · unfold parse_run_data_file
    refine List.map_congr_left (fun r _ => ?_)
    unfold formation_energy
    rw [foldl_sub_eq_sub_sum]
  · simp [parse_run_data_file]

end PlotGaspHull

/-- Claim C8: the result of `parse_lammps_log_file` does not depend on its
`property_names` parameter — the properties dict is built from the
module-level `args.property` — so any two parameter lists give identical
results. -/
theorem c8_property_names_unused (floatFn : String → Option ℚ)
    (intFn : String → Option ℤ) (args_property p1 p2 : List String)
    (lines : List (List String)) :
    PlotLammpsLog.parse_lammps_log_file floatFn intFn args_property p1 lines =
      PlotLammpsLog.parse_lammps_log_file floatFn intFn args_property p2 lines := rfl

namespace PlotLammpsLog

theorem headings_map_foldl_congr (k : String) (l : List (ℕ × String)) :
    ∀ acc, (∀ q ∈ l, q.2 ≠ k) →
      l.foldl (fun a p => if p.2 = k then some p.1 else a) acc = acc := by
  induction l with
  | nil => intro acc _; rfl
  | cons q l ih =>
    intro acc hq
    simp only [List.foldl_cons, if_neg (hq q (List.mem_cons_self q l))]
    exact ih acc (fun q' hq' => hq q' (List.mem_cons_of_mem q hq'))

theorem headings_map_eq_none (headings : List String) (k : String)
    (h : k ∉ headings) : headings_map headings k = none := by
  unfold headings_map
  refine headings_map_foldl_congr k headings.enum none (fun q hq hqk => h ?_)
  have := List.mem_enum_iff_getElem?.mp hq
  rw [hqk] at this
  exact List.getElem?_mem this

theorem headings_map_mem (headings : List String) (k : String) (i : ℕ)
    (h : headings_map headings k = some i) : k ∈ headings := by
  by_contra hnm
  rw [headings_map_eq_none headings k hnm] at h
  cases h

theorem excMapM_ok_length {α β : Type} (f : α → Except String β) :
    ∀ (l : List α) (l' : List β), excMapM f l = .ok l' → l'.length = l.length := by
  intro l
  induction l with
  | nil => intro l' h; cases h; rfl
  | cons a t ih =>
    intro l' h
    unfold excMapM at h
    cases hf : f a with
    | error e => rw [hf] at h; cases h
    | ok b =>
      rw [hf] at h
      cases ht : excMapM f t with
      | error e => rw [ht] at h; cases h
      | ok bs =>
        rw [ht] at h
        cases h
        simp [ih bs ht]

theorem extract_column_ok_mem (floatFn : String → Option ℚ) (headings : List String)
    (seg : List String) (segs : List (List String)) (p : String) (v : List ℚ)
    (h : extract_column floatFn headings (seg :: segs) p = .ok v) : p ∈ headings := by
  unfold extract_column excMapM at h
  cases hm : headings_map headings p with
  | none => rw [hm] at h; cases h
  | some i => exact headings_map_mem headings p i hm

theorem props_build_ok (floatFn : String → Option ℚ) (headings : List String)
    (segments : List (List String)) :
    ∀ (ap : List String) (props : List (String × List ℚ)),
      props_build floatFn headings segments ap = .ok props →
      (∀ pr ∈ props, extract_column floatFn headings segments pr.1 = .ok pr.2) ∧
      (∀ p ∈ ap, ∃ v, (p, v) ∈ props) := by
  intro ap
  induction ap with
  | nil =>
    intro props h
    cases h
    exact ⟨fun pr hpr => absurd hpr (List.not_mem_nil pr), fun p hp => absurd hp
      (List.not_mem_nil p)⟩
  | cons p t ih =>
    intro props h
    unfold props_build excMapM at h
    cases hx : extract_column floatFn headings segments p with
    | error e => rw [hx] at h; simp [Except.map] at h
    | ok v =>
      rw [hx] at h
      cases ht : excMapM
          (fun p => (extract_column floatFn headings segments p).map
            (fun v => (p, v))) t with
      | error e => rw [ht] at h; simp [Except.map] at h
      | ok props' =>
        rw [ht] at h
        simp only [Except.map] at h
        have h' : props = (p, v) :: props' := by
          cases h; rfl
        obtain ⟨ih1, ih2⟩ := ih props' ht
        subst h'
        constructor
        · intro pr hpr
          rcases List.mem_cons.mp hpr with rfl | hpr'
          · exact hx
          · exact ih1 pr hpr'
        · intro q hq
          rcases List.mem_cons.mp hq with rfl | hq'
          · exact ⟨v, List.mem_cons_self _ _⟩
          · obtain ⟨w, hw⟩ := ih2 q hq'
            exact ⟨w, List.mem_cons_of_mem _ hw⟩

theorem dict_get_mem (k : String) (v : List ℚ) :
    ∀ (l : List (String × List ℚ)) (acc : Option (List ℚ)),
      l.foldl (fun acc p => if p.1 = k then some p.2 else acc) acc = some v →
      (k, v) ∈ l ∨ acc = some v := by
  intro l
  induction l with
  | nil => intro acc h; exact Or.inr h
  | cons q t ih =>
    intro acc h
    simp only [List.foldl_cons] at h
    rcases ih _ h with hm | hacc
    · exact Or.inl (List.mem_cons_of_mem q hm)
    · by_cases hk : q.1 = k
      · rw [if_pos hk] at hacc
        cases hacc
        left
        have : q = (k, q.2) := by rw [← hk]
        rw [← this]
        exact List.mem_cons_self q t
      · rw [if_neg hk] at hacc
        exact Or.inr hacc

theorem dict_foldl_isSome (k : String) :
    ∀ (l : List (String × List ℚ)) (acc : Option (List ℚ)), acc.isSome →
      (l.foldl (fun acc p => if p.1 = k then some p.2 else acc) acc).isSome := by
  intro l
  induction l with
  | nil => intro acc h; exact h
  | cons q t ih =>
    intro acc h
    simp only [List.foldl_cons]
    refine ih _ ?_
    by_cases hk : q.1 = k
    · simp [if_pos hk]
    · simpa [if_neg hk] using h

theorem dict_foldl_isSome_of_mem (k : String) (v : List ℚ) :
    ∀ (l : List (String × List ℚ)) (acc : Option (List ℚ)), (k, v) ∈ l →
      (l.foldl (fun acc p => if p.1 = k then some p.2 else acc) acc).isSome := by
  intro l
  induction l with
  | nil => intro acc h; cases h
  | cons q t ih =>
    intro acc h
    simp only [List.foldl_cons]
    rcases List.mem_cons.mp h with rfl | hm
    · exact dict_foldl_isSome k t _ (by simp)
    · exact ih _ hm

theorem dict_get_isSome_of_mem (k : String) (v : List ℚ)
    (l : List (String × List ℚ)) (h : (k, v) ∈ l) : (dict_get l k).isSome :=
  dict_foldl_isSome_of_mem k v l none h

end PlotLammpsLog

namespace PlotLammpsLog

/-- Claim C7 counterexample: a log whose header is `Step` alone and which
has NO data lines, with requested property `Temp` absent from the header.
The properties dict comprehension is lazy, so the missing-property lookup
is never evaluated and the parse returns successfully instead of failing
with an unknown-property error. -/
theorem c7_counterexample_empty_data :
    parse_lammps_log_file (fun _ => none) (fun _ => none) ["Temp"] ["Temp"]
        [["Step"]] = .ok ([], [("Temp", [])]) ∧
    "Temp" ∉ ["Step"] :=
  ⟨rfl, by decide⟩

/-- Claim C7 (amended): (1) whenever `parse_lammps_log_file` returns, every
requested property is present in the header provided there is at least one
data line, and the steps list has the same length as every requested
property's series; (2) on an input with at least one data line, a first
requested property that is absent from the header makes the parse fail
with the unknown-property KeyError. -/
theorem c7_log_parse_characterization :
    (∀ (floatFn : String → Option ℚ) (intFn : String → Option ℤ)
        (args_property property_names headings : List String)
        (segments : List (List String)) (steps : List ℤ)
        (props : List (String × List ℚ)),
      parse_lammps_log_file floatFn intFn args_property property_names
          (headings :: segments) = .ok (steps, props) →
        (∀ p ∈ args_property, segments ≠ [] → p ∈ headings) ∧
        (∀ p ∈ args_property, ∃ v, dict_get props p = some v ∧
          v.length = steps.length)) ∧
    (∀ (floatFn : String → Option ℚ) (intFn : String → Option ℤ)
        (p : String) (rest property_names headings : List String)
        (seg : List String) (segments : List (List String)),
      "Step" ∈ headings → p ∉ headings →
      parse_lammps_log_file floatFn intFn (p :: rest) property_names
          (headings :: seg :: segments) =
        .error "KeyError: property not found in headings map") := by
  constructor
  · intro floatFn intFn args_property property_names headings segments steps props h
    by_cases hS : "Step" ∈ headings
    · simp only [parse_lammps_log_file, if_pos hS] at h
      cases hpb : props_build floatFn headings segments args_property with
      | error e => rw [hpb] at h; cases h
      | ok props0 =>
        rw [hpb] at h
        cases hsb : steps_build intFn headings segments with
        | error e => rw [hsb] at h; cases h
        | ok steps0 =>
          rw [hsb] at h
          cases h
          obtain ⟨h1, h2⟩ := props_build_ok floatFn headings segments
            args_property props hpb
          constructor
          · intro p hpmem hseg
            obtain ⟨v, hv⟩ := h2 p hpmem
            have hx := h1 (p, v) hv
            cases segments with
            | nil => exact absurd rfl hseg
            | cons seg segs =>
              exact extract_column_ok_mem floatFn headings seg segs p v hx
          · intro p hpmem
            obtain ⟨v, hv⟩ := h2 p hpmem
            have hsome := dict_get_isSome_of_mem p v props hv
            obtain ⟨w, hw⟩ := Option.isSome_iff_exists.mp hsome
            refine ⟨w, hw, ?_⟩
            rcases dict_get_mem p w props none hw with hmem | habs
            · have hxw := h1 (p, w) hmem
              have hlw := excMapM_ok_length _ _ _ hxw
              have hls := excMapM_ok_length _ _ _ hsb
              rw [hlw, hls]
            · cases habs
    · simp [parse_lammps_log_file, hS] at h
  · intro floatFn intFn p rest property_names headings seg segments hS hp
    have h0 : headings_map headings p = none := headings_map_eq_none headings p hp
    simp only [parse_lammps_log_file, if_pos hS, props_build, excMapM,
      extract_column, h0, Except.map]

/-- Claim C7 witness: a well-formed two-row log parses with matching
lengths, and the same header with the property `Temp` missing fails with
KeyError once a data line exists. -/
theorem c7_log_parse_witness :
    ((∀ p ∈ ["Temp"], ([["0", "1.5"], ["10", "2.5"]] : List (List String)) ≠ [] →
        p ∈ ["Step", "Temp"]) ∧
      (∀ p ∈ ["Temp"], ∃ v,
        dict_get [("Temp", [(3 : ℚ)/2, 5/2])] p = some v ∧ v.length = 2)) ∧
    parse_lammps_log_file (fun _ => none) (fun _ => none) ["Temp"] []
        [["Step"], ["0"]] = .error "KeyError: property not found in headings map" := by
  constructor
  · have h := c7_log_parse_characterization.1
      (fun s => if s = "1.5" then some (3/2) else if s = "2.5" then some (5/2)
        else none)
      (fun s => if s = "0" then some 0 else if s = "10" then some 10 else none)
      ["Temp"] [] ["Step", "Temp"] [["0", "1.5"], ["10", "2.5"]] [0, 10]
      [("Temp", [(3 : ℚ)/2, 5/2])] (by rfl)
    exact ⟨h.1, fun p hp => by
      obtain ⟨v, hv, hl⟩ := h.2 p hp
      exact ⟨v, hv, hl⟩⟩
  · exact c7_log_parse_characterization.2 (fun _ => none) (fun _ => none)
      "Temp" [] [] ["Step"] ["0"] [] (by decide) (by decide)

end PlotLammpsLog

theorem optMapM_spec {α β : Type} (f : α → Option β) :
    ∀ l : List α, (∀ a ∈ l, (f a).isSome) →
      ∃ l', optMapM f l = some l' ∧ l'.length = l.length ∧
        ∀ i : ℕ, l'.get? i = (l.get? i).bind f := by
  intro l
  induction l with
  | nil => exact fun _ => ⟨[], rfl, rfl, fun i => by cases i <;> rfl⟩
  | cons a t ih =>
    intro h
    obtain ⟨b, hb⟩ := Option.isSome_iff_exists.mp (h a (List.mem_cons_self a t))
    obtain ⟨l', hl', hlen, hpt⟩ := ih (fun x hx => h x (List.mem_cons_of_mem a hx))
    refine ⟨b :: l', ?_, by simp [hlen], fun i => ?_⟩
    · unfold optMapM
      rw [hb, hl']
      rfl
    · cases i with
      | zero => simp [hb]
      | succ j => simpa using hpt j

namespace PlotVaspBand

theorem proc_row_not_mem (lab : String) :
    ∀ (ls : List String) (vs : List ℚ) (m : String → Option (List ℚ)),
      lab ∉ ls → proc_row ls vs m lab = m lab := by
  intro ls
  induction ls with
  | nil => intro vs m _; cases vs <;> rfl
  | cons l t ih =>
    intro vs m hmem
    cases vs with
    | nil => rfl
    | cons v vt =>
      have hne : lab ≠ l := fun hc => hmem (hc ▸ List.mem_cons_self l t)
      have : proc_row (l :: t) (v :: vt) m = proc_row t vt (update_band m l v) := rfl
      rw [this, ih vt _ (fun hc => hmem (List.mem_cons_of_mem l hc))]
      exact if_neg hne

theorem proc_row_get :
    ∀ (labels : List String) (p : ℕ) (lab : String), labels.Nodup →
      labels.get? p = some lab →
      ∀ (row : List ℚ) (m : String → Option (List ℚ)), p < row.length →
        proc_row labels row m lab = (m lab).map (fun xs => xs ++ [row.getD p 0]) := by
  intro labels
  induction labels with
  | nil => intro p lab _ hp; cases p <;> cases hp
  | cons l ls ih =>
    intro p lab hnd hp row m hlen
    obtain ⟨hl, hnd'⟩ := List.nodup_cons.mp hnd
    cases p with
    | zero =>
      have hlab : l = lab := by simpa using hp
      cases row with
      | nil => cases hlen
      | cons v vt =>
        have h1 : proc_row (l :: ls) (v :: vt) m = proc_row ls vt (update_band m l v) :=
          rfl
        rw [h1, proc_row_not_mem lab ls vt _ (hlab ▸ hl)]
        unfold update_band
        rw [if_pos hlab.symm]
        rfl
    | succ q =>
      have hq : ls.get? q = some lab := by simpa using hp
      cases row with
      | nil => cases hlen
      | cons v vt =>
        have h1 : proc_row (l :: ls) (v :: vt) m = proc_row ls vt (update_band m l v) :=
          rfl
        have hlab_mem : lab ∈ ls := List.get?_mem hq
        have hne : lab ≠ l := fun hc => hl (hc ▸ hlab_mem)
        rw [h1, ih q lab hnd' hq vt _ (Nat.succ_lt_succ_iff.mp hlen)]
        unfold update_band
        rw [if_neg hne]
        rfl

theorem get?_eq_some_getD (l : List ℚ) (p : ℕ) (h : p < l.length) :
    l.get? p = some (l.getD p 0) := by
  cases hg : l.get? p with
  | none => exact absurd (List.get?_eq_none.mp hg) (Nat.not_le.mpr h)
  | some v => rw [List.getD_eq_get?, hg]; rfl

theorem build_band_spec (labels : List String) (lines : List (List ℚ))
    (lab : String) (p : ℕ) (hnd : labels.Nodup) (hp : labels.get? p = some lab) :
    ∀ (k idx : ℕ) (m : String → Option (List ℚ)) (cur : List ℚ),
      m lab = some cur →
      (∀ j < k, ∃ row, lines.get? (idx + j) = some row ∧
        labels.length ≤ row.length) →
      ∃ m', build_band labels lines k idx m = some m' ∧
        ∃ vals, m' lab = some (cur ++ vals) ∧ vals.length = k ∧
          ∀ j < k, vals.get? j =
            (lines.get? (idx + j)).bind (fun row => row.get? p) := by
  intro k
  induction k with
  | zero =>
    intro idx m cur hm _
    exact ⟨m, rfl, [], by simpa using hm, rfl, fun j hj => absurd hj (Nat.not_lt_zero j)⟩
  | succ n ih =>
    intro idx m cur hm hrows
    obtain ⟨row, hrow, hrlen⟩ := hrows 0 (Nat.succ_pos n)
    rw [Nat.add_zero] at hrow
    have hplen : p < labels.length := by
      obtain ⟨hlt, -⟩ := List.get?_eq_some.mp hp
      exact hlt
    have hplen' : p < row.length := Nat.lt_of_lt_of_le hplen hrlen
    have hproc : proc_row labels row m lab = some (cur ++ [row.getD p 0]) := by
      rw [proc_row_get labels p lab hnd hp row m hplen', hm]
      rfl
    obtain ⟨m', hm', vals', hv', hvlen', hvpt'⟩ := ih (idx + 1) (proc_row labels row m)
      (cur ++ [row.getD p 0]) hproc
      (fun j hj => by
        have := hrows (j + 1) (Nat.succ_lt_succ hj)
        rwa [show idx + (j + 1) = idx + 1 + j by omega] at this)
    refine ⟨m', ?_, row.getD p 0 :: vals', ?_, by simp [hvlen'], fun j hj => ?_⟩
    · unfold build_band
      rw [hrow]
      exact hm'
    · rw [hv']
      simp
    · cases j with
      | zero =>
        rw [Nat.add_zero, hrow]
        exact (get?_eq_some_getD row p hplen').symm
      | succ i =>
        have h1 : (row.getD p 0 :: vals').get? (i + 1) = vals'.get? i := rfl
        rw [h1, hvpt' i (Nat.succ_lt_succ_iff.mp hj),
          show idx + 1 + i = idx + (i + 1) by omega]

end PlotVaspBand

namespace PlotVaspBand

/-- Claim C4: with metadata giving `nkpts` and `nbands` and a file long
enough to hold the data, `parse_band_file` produces exactly `nbands`
bands; band `i` takes its `nkpts` rows, in file order, from the
consecutive lines starting at line index `3 + i * nkpts`, and the column
at header position `p` receives exactly the `p`-th whitespace token of
each row (the positional zip of row values against column labels). -/
theorem c4_parse_band_file (labels : List String) (nkpts nbands : ℕ)
    (lines : List (List ℚ)) (p : ℕ) (lab : String)
    (hnd : labels.Nodup) (hp : labels.get? p = some lab)
    (hrows : ∀ i < nbands * nkpts, ∃ row, lines.get? (3 + i) = some row ∧
      labels.length ≤ row.length) :
    ∃ bands, parse_band_file labels nkpts nbands lines = some bands ∧
      bands.length = nbands ∧
      ∀ i < nbands, ∃ b, bands.get? i = some b ∧ ∃ vals, b lab = some vals ∧
        vals.length = nkpts ∧
        ∀ j < nkpts, vals.get? j =
          (lines.get? (3 + i * nkpts + j)).bind (fun row => row.get? p) := by
  have hlab_mem : lab ∈ labels := List.get?_mem hp
  have hinit : init_band labels lab = some [] := by
    unfold init_band
    rw [if_pos hlab_mem]
  have hband : ∀ i < nbands,
      ∃ m', build_band labels lines nkpts (3 + i * nkpts) (init_band labels) =
          some m' ∧
        ∃ vals, m' lab = some vals ∧ vals.length = nkpts ∧
          ∀ j < nkpts, vals.get? j =
            (lines.get? (3 + i * nkpts + j)).bind (fun row => row.get? p) := by
    intro i hi
    have hrows' : ∀ j < nkpts, ∃ row, lines.get? (3 + i * nkpts + j) = some row ∧
        labels.length ≤ row.length := by
      intro j hj
      have hlt : i * nkpts + j < nbands * nkpts := by
        calc i * nkpts + j < i * nkpts + nkpts := Nat.add_lt_add_left hj _
        _ = (i + 1) * nkpts := by ring
        _ ≤ nbands * nkpts := Nat.mul_le_mul_right nkpts (Nat.succ_le_of_lt hi)
      have := hrows (i * nkpts + j) hlt
      rwa [show 3 + (i * nkpts + j) = 3 + i * nkpts + j by omega] at this
    obtain ⟨m', hm', vals, hv, hvlen, hvpt⟩ := build_band_spec labels lines lab p
      hnd hp nkpts (3 + i * nkpts) (init_band labels) [] hinit hrows'
    exact ⟨m', hm', vals, by simpa using hv, hvlen, hvpt⟩
  obtain ⟨bands, hb, hblen, hbpt⟩ := optMapM_spec
    (fun i => build_band labels lines nkpts (3 + i * nkpts) (init_band labels))
    (List.range nbands)
    (fun a ha => by
      obtain ⟨m', hm', -⟩ := hband a (List.mem_range.mp ha)
      simp [hm'])
  refine ⟨bands, hb, by simpa using hblen, fun i hi => ?_⟩
  obtain ⟨m', hm', vals, hv, hvlen, hvpt⟩ := hband i hi
  have hgi : bands.get? i = some m' := by
    rw [hbpt i, List.get?_range hi]
    simpa using hm'
  exact ⟨m', hgi, vals, hv, hvlen, hvpt⟩

/-- Claim C4 witness: metadata `nkpts = 3`, `nbands = 2` on a concrete
9-line file yields exactly 2 bands of 3 rows each, read in file order from
line indices 3,4,5 and 6,7,8. -/
theorem c4_parse_band_file_witness :
    ∃ bands, parse_band_file ["K", "E"] 3 2
        [[], [], [], [0, 10], [1, 11], [2, 12], [0, 20], [1, 21], [2, 22]] =
          some bands ∧
      bands.length = 2 ∧
      ∀ i < 2, ∃ b, bands.get? i = some b ∧ ∃ vals, b "E" = some vals ∧
        vals.length = 3 ∧
        ∀ j < 3, vals.get? j =
          (([[], [], [], [0, 10], [1, 11], [2, 12], [0, 20], [1, 21],
            [2, 22]] : List (List ℚ)).get? (3 + i * 3 + j)).bind
            (fun row => row.get? 1) :=
  c4_parse_band_file ["K", "E"] 3 2
    [[], [], [], [0, 10], [1, 11], [2, 12], [0, 20], [1, 21], [2, 22]] 1 "E"
    (by decide) (by rfl)
    (by
      intro i hi
      interval_cases i <;> exact ⟨_, rfl, by norm_num⟩)

end PlotVaspBand

theorem excFoldlM_append {σ α : Type} (f : σ → α → Except String σ) :
    ∀ (l1 l2 : List α) (s : σ),
      excFoldlM f s (l1 ++ l2) =
        match excFoldlM f s l1 with
        | .error e => .error e
        | .ok s' => excFoldlM f s' l2 := by
  intro l1
  induction l1 with
  | nil => intro l2 s; rfl
  | cons a t ih =>
    intro l2 s
    rw [List.cons_append]
    cases hfa : f s a with
    | error e => simp only [excFoldlM, hfa]
    | ok s' =>
      simp only [excFoldlM, hfa]
      exact ih l2 s'

namespace PlotLammpsRdf

theorem block_line_step_spec (line : List ℚ) :
    ∀ (cols : List ℤ) (bd : ℤ → Option (List ℚ)),
      (∀ c ∈ cols, (pyIndex line (c + 2)).isSome) →
      ∃ bd', block_line_step cols line bd = .ok bd' ∧
        (∀ c ∉ cols, bd' c = bd c) ∧
        (cols.Nodup → ∀ c ∈ cols,
          bd' c = (bd c).map (fun xs => xs ++ [(pyIndex line (c + 2)).getD 0])) := by
  intro cols
  induction cols with
  | nil =>
    intro bd _
    exact ⟨bd, rfl, fun _ _ => rfl, fun _ c hc => absurd hc (List.not_mem_nil c)⟩
  | cons k ks ih =>
    intro bd hsome
    obtain ⟨v, hv⟩ := Option.isSome_iff_exists.mp (hsome k (List.mem_cons_self k ks))
    have hstep : block_line_step (k :: ks) line bd =
        block_line_step ks line
          (fun c => if c = k then (bd c).map (fun xs => xs ++ [v]) else bd c) := by
      simp only [block_line_step, excFoldlM, hv]
    obtain ⟨bd', hbd', hout, hin⟩ := ih
      (fun c => if c = k then (bd c).map (fun xs => xs ++ [v]) else bd c)
      (fun c hc => hsome c (List.mem_cons_of_mem k hc))
    refine ⟨bd', by rw [hstep]; exact hbd', ?_, ?_⟩
    · intro c hc
      have hck : c ≠ k := fun hck => hc (hck ▸ List.mem_cons_self k ks)
      have hcks : c ∉ ks := fun hcks => hc (List.mem_cons_of_mem k hcks)
      rw [hout c hcks, if_neg hck]
    · intro hnd c hc
      obtain ⟨hk, hnd'⟩ := List.nodup_cons.mp hnd
      rcases List.mem_cons.mp hc with rfl | hcks
      · rw [hout c hk, if_pos rfl, hv]
        rfl
      · have hck : c ≠ k := fun hck => hk (hck ▸ hcks)
        rw [hin hnd' c hcks, if_neg hck]

theorem parse_block_fold (cols : List ℤ) (hnd : cols.Nodup) :
    ∀ (rows : List (List ℚ)) (bd0 : ℤ → Option (List ℚ)),
      (∀ r ∈ rows, ∀ c ∈ cols, (pyIndex r (c + 2)).isSome) →
      ∃ bd, excFoldlM (fun bd line => block_line_step cols line bd) bd0 rows =
          .ok bd ∧
        (∀ c ∈ cols, bd c = (bd0 c).map
          (fun xs => xs ++ rows.map (fun row => (pyIndex row (c + 2)).getD 0))) ∧
        (∀ c ∉ cols, bd c = bd0 c) := by
  intro rows
  induction rows with
  | nil =>
    intro bd0 _
    exact ⟨bd0, rfl, fun c _ => by cases hb : bd0 c <;> simp [hb], fun _ _ => rfl⟩
  | cons r rows ih =>
    intro bd0 hsome
    obtain ⟨bd1, hbd1, hout1, hin1⟩ := block_line_step_spec r cols bd0
      (hsome r (List.mem_cons_self r rows))
    obtain ⟨bd, hbd, hin, hout⟩ := ih bd1
      (fun r' hr' => hsome r' (List.mem_cons_of_mem r hr'))
    refine ⟨bd, ?_, ?_, ?_⟩
    · have hunf : excFoldlM (fun bd line => block_line_step cols line bd) bd0
          (r :: rows) =
            excFoldlM (fun bd line => block_line_step cols line bd) bd1 rows := by
        simp only [excFoldlM, hbd1]
      rw [hunf]
      exact hbd
    · intro c hc
      rw [hin c hc, hin1 hnd c hc]
      cases hb : bd0 c <;> simp [hb]
    · intro c hc
      rw [hout c hc, hout1 c hc]

theorem parse_rdf_block_spec (cols : List ℤ) (hnd : cols.Nodup)
    (rows : List (List ℚ))
    (hsome : ∀ r ∈ rows, ∀ c ∈ cols, (pyIndex r (c + 2)).isSome) :
    ∃ bd, _parse_rdf_block cols rows = .ok bd ∧
      ∀ c ∈ cols, bd c =
        some (rows.map (fun row => (pyIndex row (c + 2)).getD 0)) := by
  obtain ⟨bd, hbd, hin, -⟩ := parse_block_fold cols hnd rows
    (fun c => if c ∈ cols then some [] else none) hsome
  refine ⟨bd, hbd, fun c hc => ?_⟩
  rw [hin c hc, if_pos hc]
  rfl

theorem parse_rdf_distances_spec :
    ∀ rows : List (List ℚ), (∀ r ∈ rows, (pyIndex r 1).isSome) →
      _parse_rdf_distances rows =
        .ok (rows.map (fun r => (pyIndex r 1).getD 0)) := by
  intro rows
  induction rows with
  | nil => intro _; rfl
  | cons r rows ih =>
    intro hsome
    obtain ⟨d, hd⟩ := Option.isSome_iff_exists.mp (hsome r (List.mem_cons_self r rows))
    have ih' := ih (fun r' hr' => hsome r' (List.mem_cons_of_mem r hr'))
    unfold _parse_rdf_distances at ih' ⊢
    simp only [excMapM, hd, ih', Except.map, List.map_cons, Option.getD_some]

theorem append_cols_spec :
    ∀ (cols : List ℤ), cols.Nodup →
      ∀ (bd : ℤ → Option (List ℚ)) (cd : ℤ → Option (List (List ℚ))),
        (∀ c ∈ cols, append_cols cols bd cd c =
          (cd c).map (fun xs => xs ++ [(bd c).getD []])) ∧
        (∀ c ∉ cols, append_cols cols bd cd c = cd c) := by
  intro cols
  induction cols with
  | nil =>
    intro _ bd cd
    exact ⟨fun c hc => absurd hc (List.not_mem_nil c), fun _ _ => rfl⟩
  | cons k ks ih =>
    intro hnd bd cd
    obtain ⟨hk, hnd'⟩ := List.nodup_cons.mp hnd
    have hunfold : append_cols (k :: ks) bd cd = append_cols ks bd
        (fun c => if c = k then (cd c).map (fun xs => xs ++ [(bd k).getD []])
          else cd c) := rfl
    obtain ⟨hin, hout⟩ := ih hnd' bd
      (fun c => if c = k then (cd c).map (fun xs => xs ++ [(bd k).getD []])
        else cd c)
    constructor
    · intro c hc
      rcases List.mem_cons.mp hc with rfl | hcks
      · rw [hunfold, hout c hk, if_pos rfl]
      · have hck : c ≠ k := fun hck => hk (hck ▸ hcks)
        rw [hunfold, hin c hcks, if_neg hck]
    · intro c hc
      have hck : c ≠ k := fun hck => hc (hck ▸ List.mem_cons_self k ks)
      have hcks : c ∉ ks := fun hcks => hc (List.mem_cons_of_mem k hcks)
      rw [hunfold, hout c hcks, if_neg hck]

end PlotLammpsRdf

theorem get?_eq_some_getD_of_lt {α : Type} (l : List α) (j : ℕ) (d : α)
    (h : j < l.length) : l.get? j = some (l.getD j d) := by
  cases hg : l.get? j with
  | none => exact absurd (List.get?_eq_none.mp hg) (Nat.not_le.mpr h)
  | some v => rw [List.getD_eq_get?, hg]; rfl

theorem getD_mem_of_lt {α : Type} (l : List α) (j : ℕ) (d : α) (h : j < l.length) :
    l.getD j d ∈ l :=
  List.get?_mem (get?_eq_some_getD_of_lt l j d h)

namespace PlotLammpsRdf

theorem scan_skip (cols : List ℤ) (lines' : List (List ℚ)) :
    ∀ (n i : ℕ) (st : RdfState),
      (∀ j < n, ∃ r, lines'.get? (i + j) = some r ∧ r.length ≠ 2) →
      excFoldlM (fun st i => scan_step cols lines' st i) st (List.range' i n) =
        .ok st := by
  intro n
  induction n with
  | zero => intro i st _; rfl
  | succ m ih =>
    intro i st h
    obtain ⟨r, hr, hr2⟩ := h 0 (Nat.succ_pos m)
    rw [Nat.add_zero] at hr
    have hstep : scan_step cols lines' st i = .ok st := by
      simp only [scan_step, hr, if_neg hr2]
    rw [List.range'_succ]
    simp only [excFoldlM, hstep]
    exact ih (i + 1) st (fun j hj => by
      have := h (j + 1) (Nat.succ_lt_succ hj)
      rwa [show i + (j + 1) = i + 1 + j by omega] at this)

theorem scan_blocks (cols : List ℤ) (hnd : cols.Nodup) (lines' : List (List ℚ)) :
    ∀ (blocks : List RdfBlockSpec) (i : ℕ) (st : RdfState),
      lines'.drop i = blocks.bind blockLinesOf →
      (∀ b ∈ blocks, ∀ r ∈ b.rows, r.length ≠ 2 ∧ (pyIndex r 1).isSome ∧
        ∀ c ∈ cols, (pyIndex r (c + 2)).isSome) →
      (∀ c ∈ cols, (st.column_data c).isSome) →
      ∃ stf, excFoldlM (fun st i => scan_step cols lines' st i) st
          (List.range' i (blocks.bind blockLinesOf).length) = .ok stf ∧
        (∀ c ∈ cols, stf.column_data c = some ((st.column_data c).getD [] ++
          blocks.map (fun b => b.rows.map (fun r => (pyIndex r (c + 2)).getD 0)))) ∧
        (∀ d, st.distances = some d → stf.distances = some d) ∧
        (st.distances = none → stf.distances =
          blocks.head?.map (fun b => b.rows.map (fun r => (pyIndex r 1).getD 0))) := by
  intro blocks
  induction blocks with
  | nil =>
    intro i st _ _ hcd
    refine ⟨st, rfl, fun c hc => ?_, fun d hd => hd, fun hd => by simp [hd]⟩
    obtain ⟨v, hv⟩ := Option.isSome_iff_exists.mp (hcd c hc)
    simp [hv]
  | cons b bs ih =>
    intro i st hdrop hwf hcd
    have hbind : (b :: bs).bind blockLinesOf =
        ([b.ts, (b.rows.length : ℚ)] :: b.rows) ++ bs.bind blockLinesOf := rfl
    have hdrop' : lines'.drop i =
        ([b.ts, (b.rows.length : ℚ)] :: b.rows) ++ bs.bind blockLinesOf := by
      rw [hdrop, hbind]
    have hget_i : lines'.get? i = some [b.ts, (b.rows.length : ℚ)] := by
      have h0 : (lines'.drop i).get? 0 = lines'.get? (i + 0) := List.get?_drop lines' i 0
      rw [Nat.add_zero] at h0
      rw [← h0, hdrop']
      rfl
    have hdrop1 : lines'.drop (i + 1) = b.rows ++ bs.bind blockLinesOf := by
      have h1 : (lines'.drop i).drop 1 = lines'.drop (i + 1) := List.drop_drop 1 i lines'
      rw [← h1, hdrop']
      rfl
    have hbl : (lines'.drop (i + 1)).take (tokInt ((b.rows.length : ℚ))).toNat =
        b.rows := by
      have htok : (tokInt ((b.rows.length : ℚ))).toNat = b.rows.length := by
        simp [tokInt]
      rw [htok, hdrop1, List.take_left]
    have hwfb := hwf b (List.mem_cons_self b bs)
    obtain ⟨bd, hbd, hbdc⟩ := parse_rdf_block_spec cols hnd b.rows
      (fun r hr c hc => (hwfb r hr).2.2 c hc)
    have hds_spec : _parse_rdf_distances b.rows =
        .ok (b.rows.map (fun r => (pyIndex r 1).getD 0)) :=
      parse_rdf_distances_spec b.rows (fun r hr => (hwfb r hr).2.1)
    obtain ⟨acs, hacs⟩ : ∃ acs : ℤ → List (List ℚ),
        ∀ c ∈ cols, st.column_data c = some (acs c) := by
      refine ⟨fun c => (st.column_data c).getD [], fun c hc => ?_⟩
      obtain ⟨v, hv⟩ := Option.isSome_iff_exists.mp (hcd c hc)
      simp [hv]
    obtain ⟨hac_in, -⟩ := append_cols_spec cols hnd bd st.column_data
    have hst1cd : ∀ c ∈ cols, append_cols cols bd st.column_data c =
        some (acs c ++ [b.rows.map (fun r => (pyIndex r (c + 2)).getD 0)]) := by
      intro c hc
      rw [hac_in c hc, hacs c hc, hbdc c hc]
      rfl
    -- the state after the header step at index i
    have hmain : ∀ st1 : RdfState, scan_step cols lines' st i = .ok st1 →
        (∀ c ∈ cols, st1.column_data c =
          some (acs c ++ [b.rows.map (fun r => (pyIndex r (c + 2)).getD 0)])) →
        (st1.distances = match st.distances with
          | none => some (b.rows.map (fun r => (pyIndex r 1).getD 0))
          | some d => some d) →
        ∃ stf, excFoldlM (fun st i => scan_step cols lines' st i) st
            (List.range' i ((b :: bs).bind blockLinesOf).length) = .ok stf ∧
          (∀ c ∈ cols, stf.column_data c = some ((st.column_data c).getD [] ++
            (b :: bs).map (fun b => b.rows.map (fun r => (pyIndex r (c + 2)).getD 0)))) ∧
          (∀ d, st.distances = some d → stf.distances = some d) ∧
          (st.distances = none → stf.distances =
            (b :: bs).head?.map (fun b => b.rows.map (fun r => (pyIndex r 1).getD 0))) := by
      intro st1 hstep hst1c hst1d
      have hlen : ((b :: bs).bind blockLinesOf).length =
          (1 + b.rows.length) + (bs.bind blockLinesOf).length := by
        rw [hbind, List.length_append, List.length_cons]
        omega
      have hsplit : List.range' i ((b :: bs).bind blockLinesOf).length =
          List.range' i (1 + b.rows.length) ++
            List.range' (i + (1 + b.rows.length)) (bs.bind blockLinesOf).length := by
        rw [hlen]
        rw [show 1 + b.rows.length + (bs.bind blockLinesOf).length =
          (bs.bind blockLinesOf).length + (1 + b.rows.length) by omega]
        rw [← List.range'_append i (1 + b.rows.length) (bs.bind blockLinesOf).length 1]
        simp
      have hseg1 : excFoldlM (fun st i => scan_step cols lines' st i) st
          (List.range' i (1 + b.rows.length)) = .ok st1 := by
        rw [Nat.add_comm 1 b.rows.length, List.range'_succ]
        simp only [excFoldlM, hstep]
        refine scan_skip cols lines' b.rows.length (i + 1) st1 (fun j hj => ?_)
        refine ⟨b.rows.getD j [], ?_, (hwfb _ (getD_mem_of_lt b.rows j [] hj)).1⟩
        have hg : (lines'.drop (i + 1)).get? j = lines'.get? (i + 1 + j) :=
          List.get?_drop lines' (i + 1) j
        rw [← hg, hdrop1, List.get?_append hj,
          get?_eq_some_getD_of_lt b.rows j [] hj]
      obtain ⟨stf, hstf, hstfc, hstfd1, hstfd2⟩ := ih (i + (1 + b.rows.length)) st1
        (by
          have h2 : (lines'.drop i).drop (1 + b.rows.length) =
              lines'.drop (i + (1 + b.rows.length)) :=
            List.drop_drop (1 + b.rows.length) i lines'
          rw [← h2, hdrop']
          rw [show (1 + b.rows.length) = ([b.ts, (b.rows.length : ℚ)] :: b.rows).length
            by simp; omega]
          exact List.drop_left _ _)
        (fun b' hb' => hwf b' (List.mem_cons_of_mem b hb'))
        (fun c hc => by rw [hst1c c hc]; rfl)
      refine ⟨stf, ?_, ?_, ?_, ?_⟩
      · rw [hsplit, excFoldlM_append, hseg1]
        exact hstf
      · intro c hc
        rw [hstfc c hc, hst1c c hc, hacs c hc]
        simp
      · intro d hd
        refine hstfd1 d ?_
        rw [hst1d, hd]
      · intro hd
        have := hstfd1 (b.rows.map (fun r => (pyIndex r 1).getD 0)) (by rw [hst1d, hd])
        rw [this]
        rfl
    -- assemble the post-header state; its distances depend on whether they
    -- were already captured
    refine hmain ⟨(match st.distances with
        | none => some (b.rows.map (fun r => (pyIndex r 1).getD 0))
        | some d => some d), append_cols cols bd st.column_data⟩ ?_
      (fun c hc => hst1cd c hc) rfl
    have hget_i2 : lines'[i]? = some [b.ts, (b.rows.length : ℚ)] := by
      rw [← List.get?_eq_getElem?]
      exact hget_i
    cases hds : st.distances with
    | none => simp [scan_step, hget_i, hget_i2, hbl, hbd, hds, hds_spec]
    | some d => simp [scan_step, hget_i, hget_i2, hbl, hbd, hds]

end PlotLammpsRdf

namespace PlotLammpsRdf

/-- Claim C3: on a well-formed RDF input (two comment lines, then blocks of
`nrows` body lines behind two-token headers, all blocks with N rows), for
every requested column id `c` the parser stacks that column's per-block
rows in file order, the plotted time-averaged g(r) curve is the elementwise
mean of those rows across the block axis (entry `j` is the sum of the
blocks' `j`-th entries divided by the number of blocks), and the returned
distance axis is read from the first block and has length N. -/
theorem c3_rdf_time_average (c1 c2 : List ℚ) (blocks : List RdfBlockSpec)
    (columns : List ℤ) (c : ℤ) (N : ℕ)
    (hnd : columns.Nodup) (hc : c ∈ columns)
    (hwf : ∀ b ∈ blocks, ∀ r ∈ b.rows, r.length ≠ 2 ∧ (pyIndex r 1).isSome ∧
      ∀ c' ∈ columns, (pyIndex r (c' + 2)).isSome)
    (hN : ∀ b ∈ blocks, b.rows.length = N)
    (hne : blocks ≠ []) :
    ∃ st, _parse_rdf_file (mk_rdf_lines c1 c2 blocks) columns = .ok st ∧
      st.column_data c = some (blocks.map
        (fun b => b.rows.map (fun r => (pyIndex r (c + 2)).getD 0))) ∧
      (∃ b0 rest, blocks = b0 :: rest ∧
        st.distances = some (b0.rows.map (fun r => (pyIndex r 1).getD 0)) ∧
        (b0.rows.map (fun r => (pyIndex r 1).getD 0)).length = N) ∧
      plotted_curve (mk_rdf_lines c1 c2 blocks) columns c =
        .ok (np_mean_axis0 (blocks.map
          (fun b => b.rows.map (fun r => (pyIndex r (c + 2)).getD 0)))) ∧
      (np_mean_axis0 (blocks.map
        (fun b => b.rows.map (fun r => (pyIndex r (c + 2)).getD 0)))).length = N ∧
      ∀ j < N, (np_mean_axis0 (blocks.map
          (fun b => b.rows.map (fun r => (pyIndex r (c + 2)).getD 0)))).get? j =
        some (((blocks.map
            (fun b => b.rows.map (fun r => (pyIndex r (c + 2)).getD 0))).map
          (fun bv => bv.getD j 0)).sum /
          ((blocks.map
            (fun b => b.rows.map (fun r => (pyIndex r (c + 2)).getD 0))).length
              : ℚ)) := by
  obtain ⟨b0, rest, rfl⟩ : ∃ b0 rest, blocks = b0 :: rest := by
    cases blocks with
    | nil => exact absurd rfl hne
    | cons b0 rest => exact ⟨b0, rest, rfl⟩
  obtain ⟨stf, hfold, hcolf, -, hdst⟩ := scan_blocks columns hnd
    ((b0 :: rest).bind blockLinesOf) (b0 :: rest) 0
    ⟨none, fun c' => if c' ∈ columns then some [] else none⟩
    (by rw [List.drop_zero]) hwf
    (fun c' hc' => by simp [if_pos hc'])
  have hparse : _parse_rdf_file (mk_rdf_lines c1 c2 (b0 :: rest)) columns =
      .ok stf := by
    show excFoldlM
        (fun st i => scan_step columns ((b0 :: rest).bind blockLinesOf) st i)
        ⟨none, fun c' => if c' ∈ columns then some [] else none⟩
        (List.range ((b0 :: rest).bind blockLinesOf).length) = .ok stf
    rw [List.range_eq_range']
    exact hfold
  have hcol : stf.column_data c = some ((b0 :: rest).map
      (fun b => b.rows.map (fun r => (pyIndex r (c + 2)).getD 0))) := by
    rw [hcolf c hc]
    simp [hc]
  have hdistf : stf.distances =
      some (b0.rows.map (fun r => (pyIndex r 1).getD 0)) := by
    rw [hdst rfl]
    rfl
  have hlen0 : (b0.rows.map (fun r => (pyIndex r (c + 2)).getD 0)).length = N := by
    simp [hN b0 (List.mem_cons_self b0 rest)]
  have hmean : np_mean_axis0 ((b0 :: rest).map
      (fun b => b.rows.map (fun r => (pyIndex r (c + 2)).getD 0))) =
      (List.range N).map (fun j => (((b0 :: rest).map
          (fun b => b.rows.map (fun r => (pyIndex r (c + 2)).getD 0))).map
        (fun bv => bv.getD j 0)).sum /
        (((b0 :: rest).map
          (fun b => b.rows.map (fun r => (pyIndex r (c + 2)).getD 0))).length
            : ℚ)) := by
    rw [List.map_cons, np_mean_axis0, hlen0]
  refine ⟨stf, hparse, hcol, ⟨b0, rest, rfl, hdistf, ?_⟩, ?_, ?_, ?_⟩
  · simp [hN b0 (List.mem_cons_self b0 rest)]
  · unfold plotted_curve
    rw [hparse]
    simp only [Except.map, hcol]
    rfl
  · rw [hmean]
    simp
  · intro j hj
    rw [hmean, List.get?_map, List.get?_range hj]
    rfl

/-- Claim C3 witness: a column with two blocks `[1,2]` and `[3,4]` (N = 2
bins) averages to `[2.0, 3.0]`, and the distance axis is read from the
first block with length N = 2. -/
theorem c3_rdf_time_average_witness :
    ∃ st, _parse_rdf_file
        (mk_rdf_lines [] [] ([⟨0, [[0, 5, 1], [1, 6, 2]]⟩,
          ⟨100, [[0, 5, 3], [1, 6, 4]]⟩] : List RdfBlockSpec)) [0] = .ok st ∧
      st.column_data 0 = some (([⟨0, [[0, 5, 1], [1, 6, 2]]⟩,
          ⟨100, [[0, 5, 3], [1, 6, 4]]⟩] : List RdfBlockSpec).map
        (fun b => b.rows.map (fun r => (pyIndex r (0 + 2)).getD 0))) ∧
      (∃ b0 rest, ([⟨0, [[0, 5, 1], [1, 6, 2]]⟩,
          ⟨100, [[0, 5, 3], [1, 6, 4]]⟩] : List RdfBlockSpec) = b0 :: rest ∧
        st.distances = some (b0.rows.map (fun r => (pyIndex r 1).getD 0)) ∧
        (b0.rows.map (fun r => (pyIndex r 1).getD 0)).length = 2) ∧
      plotted_curve (mk_rdf_lines [] [] ([⟨0, [[0, 5, 1], [1, 6, 2]]⟩,
          ⟨100, [[0, 5, 3], [1, 6, 4]]⟩] : List RdfBlockSpec)) [0] 0 =
        .ok (np_mean_axis0 (([⟨0, [[0, 5, 1], [1, 6, 2]]⟩,
          ⟨100, [[0, 5, 3], [1, 6, 4]]⟩] : List RdfBlockSpec).map
          (fun b => b.rows.map (fun r => (pyIndex r (0 + 2)).getD 0)))) ∧
      (np_mean_axis0 (([⟨0, [[0, 5, 1], [1, 6, 2]]⟩,
          ⟨100, [[0, 5, 3], [1, 6, 4]]⟩] : List RdfBlockSpec).map
        (fun b => b.rows.map (fun r => (pyIndex r (0 + 2)).getD 0)))).length = 2 ∧
      ∀ j < 2, (np_mean_axis0 (([⟨0, [[0, 5, 1], [1, 6, 2]]⟩,
          ⟨100, [[0, 5, 3], [1, 6, 4]]⟩] : List RdfBlockSpec).map
          (fun b => b.rows.map (fun r => (pyIndex r (0 + 2)).getD 0)))).get? j =
        some (((([⟨0, [[0, 5, 1], [1, 6, 2]]⟩,
            ⟨100, [[0, 5, 3], [1, 6, 4]]⟩] : List RdfBlockSpec).map
            (fun b => b.rows.map (fun r => (pyIndex r (0 + 2)).getD 0))).map
          (fun bv => bv.getD j 0)).sum /
          ((([⟨0, [[0, 5, 1], [1, 6, 2]]⟩,
            ⟨100, [[0, 5, 3], [1, 6, 4]]⟩] : List RdfBlockSpec).map
            (fun b => b.rows.map (fun r => (pyIndex r (0 + 2)).getD 0))).length
              : ℚ)) :=
  c3_rdf_time_average [] [] ([⟨0, [[0, 5, 1], [1, 6, 2]]⟩,
      ⟨100, [[0, 5, 3], [1, 6, 4]]⟩] : List RdfBlockSpec) [0] 0 2
    (by decide) (by decide) (by decide) (by decide) (List.cons_ne_nil _ _)

end PlotLammpsRdf
